import Mathlib

/-!
# Verification of the readit post resolvers

A shallow embedding of `src/server/src/types/post.ts` (feed / comment
pagination, vote aggregation, vote status, the create/edit/delete post
mutation guards) and of `validateRegister` (regular-expression based
input validation), together with proofs of the specified properties.

The record store (accessed through an object-relational mapper in the
source) is modelled as explicit lists of records; regular expressions
are modelled by a small class-based regular-expression type with an
inductive matching semantics and an executable derivative matcher.
-/

namespace Readit

/-! ## Regular expressions

`validateRegister` tests its inputs against regular-expression literals.
We model them with a regular-expression type over character classes
(`cls` carries the class membership predicate), an inductive matching
relation `RMatch`, and an executable Brzozowski-derivative matcher
`matchList` proved equivalent to `RMatch`. -/

inductive RE : Type where
  | emp : RE
  | eps : RE
  | cls (p : Char → Bool) : RE
  | alt (a b : RE) : RE
  | cat (a b : RE) : RE
  | star (a : RE) : RE

/-- The inductive matching semantics of a regular expression. -/
inductive RMatch : RE → List Char → Prop where
  | eps : RMatch .eps []
  | cls {p : Char → Bool} {c : Char} : p c = true → RMatch (.cls p) [c]
  | altL {a b : RE} {s : List Char} : RMatch a s → RMatch (.alt a b) s
  | altR {a b : RE} {s : List Char} : RMatch b s → RMatch (.alt a b) s
  | cat {a b : RE} {s t : List Char} :
      RMatch a s → RMatch b t → RMatch (.cat a b) (s ++ t)
  | starNil {a : RE} : RMatch (.star a) []
  | starCat {a : RE} {s t : List Char} :
      RMatch a s → RMatch (.star a) t → RMatch (.star a) (s ++ t)

/-- Does the regular expression accept the empty word? -/
def nullable : RE → Bool
  | .emp => false
  | .eps => true
  | .cls _ => false
  | .alt a b => nullable a || nullable b
  | .cat a b => nullable a && nullable b
  | .star _ => true

/-- Brzozowski derivative of a regular expression by a character. -/
def deriv : RE → Char → RE
  | .emp, _ => .emp
  | .eps, _ => .emp
  | .cls p, c => if p c then .eps else .emp
  | .alt a b, c => .alt (deriv a c) (deriv b c)
  | .cat a b, c =>
      if nullable a then .alt (.cat (deriv a c) b) (deriv b c)
      else .cat (deriv a c) b
  | .star a, c => .cat (deriv a c) (.star a)

/-- The executable matcher: fold the derivative over the word. -/
def matchList (r : RE) (s : List Char) : Bool :=
  nullable (s.foldl deriv r)

theorem emp_inv {s : List Char} (h : RMatch .emp s) : False := by
  cases h

theorem eps_inv {s : List Char} (h : RMatch .eps s) : s = [] := by
  cases h; rfl

theorem cls_inv {p : Char → Bool} {s : List Char} (h : RMatch (.cls p) s) :
    ∃ c, s = [c] ∧ p c = true := by
  cases h with
  | cls hc => exact ⟨_, rfl, hc⟩

theorem alt_inv {a b : RE} {s : List Char} (h : RMatch (.alt a b) s) :
    RMatch a s ∨ RMatch b s := by
  cases h with
  | altL h => exact Or.inl h
  | altR h => exact Or.inr h

theorem cat_inv {a b : RE} {s : List Char} (h : RMatch (.cat a b) s) :
    ∃ u v, s = u ++ v ∧ RMatch a u ∧ RMatch b v := by
  cases h with
  | cat hu hv => exact ⟨_, _, rfl, hu, hv⟩

theorem nullable_iff (r : RE) : nullable r = true ↔ RMatch r [] := by
  induction r with
  | emp =>
      simp only [nullable, Bool.false_eq_true, false_iff]
      exact emp_inv
  | eps =>
      simp only [nullable, true_iff]
      exact .eps
  | cls p =>
      simp only [nullable, Bool.false_eq_true, false_iff]
      intro h
      rcases cls_inv h with ⟨c, hc, -⟩
      exact List.noConfusion hc
  | alt a b iha ihb =>
      simp only [nullable, Bool.or_eq_true, iha, ihb]
      constructor
      · rintro (h | h)
        · exact .altL h
        · exact .altR h
      · exact alt_inv
  | cat a b iha ihb =>
      simp only [nullable, Bool.and_eq_true, iha, ihb]
      constructor
      · rintro ⟨ha, hb⟩
        exact RMatch.cat ha hb
      · intro h
        rcases cat_inv h with ⟨u, v, huv, hu, hv⟩
        rcases List.append_eq_nil.mp huv.symm with ⟨h1, h2⟩
        subst h1; subst h2
        exact ⟨hu, hv⟩
  | star a iha =>
      simp only [nullable, true_iff]
      exact .starNil

theorem star_inv {a : RE} {x : List Char} (h : RMatch (.star a) x) :
    x = [] ∨ ∃ s t, x = s ++ t ∧ s ≠ [] ∧ RMatch a s ∧ RMatch (.star a) t := by
  have general : ∀ (r : RE) (y : List Char), RMatch r y → ∀ b : RE, r = .star b →
      y = [] ∨ ∃ s t, y = s ++ t ∧ s ≠ [] ∧ RMatch b s ∧ RMatch (.star b) t := by
    intro r y h
    induction h with
    | eps => intro b hb; exact absurd hb (by intro hb; cases hb)
    | cls _ => intro b hb; exact absurd hb (by intro hb; cases hb)
    | altL _ _ => intro b hb; exact absurd hb (by intro hb; cases hb)
    | altR _ _ => intro b hb; exact absurd hb (by intro hb; cases hb)
    | cat _ _ _ _ => intro b hb; exact absurd hb (by intro hb; cases hb)
    | starNil => intro b hb; exact Or.inl rfl
    | starCat hs ht ihs iht =>
        intro b hb
        injection hb with hab
        subst hab
        rename_i a' s t
        by_cases hnil : s = []
        · subst hnil
          simpa using iht a' rfl
        · exact Or.inr ⟨s, t, rfl, hnil, hs, ht⟩
  exact general _ _ h a rfl

theorem deriv_sound {r : RE} {c : Char} {s : List Char}
    (h : RMatch (deriv r c) s) : RMatch r (c :: s) := by
  induction r generalizing s with
  | emp => exact absurd h emp_inv
  | eps => exact absurd h emp_inv
  | cls p =>
      by_cases hp : p c = true
      · simp only [deriv, hp, if_true] at h
        rw [eps_inv h]
        exact .cls hp
      · simp only [deriv, hp, if_false] at h
        exact absurd h emp_inv
  | alt a b iha ihb =>
      rcases alt_inv h with h | h
      · exact .altL (iha h)
      · exact .altR (ihb h)
  | cat a b iha ihb =>
      by_cases hn : nullable a = true
      · simp only [deriv, hn, if_true] at h
        rcases alt_inv h with h | h
        · rcases cat_inv h with ⟨u, v, huv, hu, hv⟩
          subst huv
          exact RMatch.cat (iha hu) hv
        · have ha0 : RMatch a [] := (nullable_iff a).mp hn
          have : RMatch (.cat a b) ([] ++ c :: s) := RMatch.cat ha0 (ihb h)
          simpa using this
      · simp only [deriv, hn, if_false] at h
        rcases cat_inv h with ⟨u, v, huv, hu, hv⟩
        subst huv
        exact RMatch.cat (iha hu) hv
  | star a iha =>
      simp only [deriv] at h
      rcases cat_inv h with ⟨u, v, huv, hu, hv⟩
      subst huv
      exact RMatch.starCat (iha hu) hv

theorem deriv_complete {r : RE} {c : Char} {s : List Char}
    (h : RMatch r (c :: s)) : RMatch (deriv r c) s := by
  induction r generalizing s with
  | emp => exact absurd h emp_inv
  | eps => exact absurd (eps_inv h) (by simp)
  | cls p =>
      rcases cls_inv h with ⟨d, hd, hp⟩
      rcases List.cons_eq_cons.mp hd with ⟨hcd, hs⟩
      subst hcd; subst hs
      simp only [deriv, hp, if_true]
      exact .eps
  | alt a b iha ihb =>
      rcases alt_inv h with h | h
      · simp only [deriv]
        exact .altL (iha h)
      · simp only [deriv]
        exact .altR (ihb h)
  | cat a b iha ihb =>
      rcases cat_inv h with ⟨u, v, huv, hu, hv⟩
      cases u with
      | nil =>
          simp only [List.nil_append] at huv
          subst huv
          have hn : nullable a = true := (nullable_iff a).mpr hu
          simp only [deriv, hn, if_true]
          exact .altR (ihb hv)
      | cons u0 u' =>
          rcases List.cons_eq_cons.mp huv with ⟨hc0, hs⟩
          subst hc0; subst hs
          have hstep : RMatch (.cat (deriv a c) b) (u' ++ v) :=
            RMatch.cat (iha hu) hv
          by_cases hn : nullable a = true
          · simp only [deriv, hn, if_true]
            exact .altL hstep
          · simp only [deriv, hn, if_false]
            exact hstep
  | star a iha =>
      rcases star_inv h with hnil | ⟨u, v, huv, hune, hu, hv⟩
      · exact absurd hnil (by simp)
      · cases u with
        | nil => exact absurd rfl hune
        | cons u0 u' =>
            rcases List.cons_eq_cons.mp huv with ⟨hc0, hs⟩
            subst hc0; subst hs
            simp only [deriv]
            exact RMatch.cat (iha hu) hv

theorem matchList_iff (r : RE) (s : List Char) :
    matchList r s = true ↔ RMatch r s := by
  induction s generalizing r with
  | nil => exact nullable_iff r
  | cons c s ih =>
      simp only [matchList, List.foldl_cons]
      constructor
      · intro h
        exact deriv_sound ((ih (deriv r c)).mp h)
      · intro h
        exact (ih (deriv r c)).mpr (deriv_complete h)

/-! ## The `validateRegister` regular expressions

Transliterations of the two regex literals in the source:
`/^([a-zA-Z0-9_\.\-])+\@(([a-zA-Z0-9\-])+\.)+([a-zA-Z0-9]{2,4})+$/` and
`/[a-zA-Z0-9]{3,12}/`.  `plusRE r` is `r+`, `optRE r` is `r?`, and a
counted repetition `{m,n}` is `m` copies followed by `n - m` optional
copies. -/

/-- `r+` -/
def plusRE (r : RE) : RE := .cat r (.star r)

/-- `r?` -/
def optRE (r : RE) : RE := .alt .eps r

/-- The class `[a-zA-Z0-9]`. -/
def alnumC : RE := .cls Char.isAlphanum

/-- The class `[a-zA-Z0-9_\.\-]` of the email local part. -/
def localC : RE := .cls (fun c => c.isAlphanum || c == '_' || c == '.' || c == '-')

/-- The class `[a-zA-Z0-9\-]` of the email domain labels. -/
def domainC : RE := .cls (fun c => c.isAlphanum || c == '-')

/-- `^([a-zA-Z0-9_\.\-])+\@(([a-zA-Z0-9\-])+\.)+([a-zA-Z0-9]{2,4})+$`
(`{2,4}` is two mandatory copies then two optional ones). -/
def emailRegex : RE :=
  .cat (plusRE localC)
    (.cat (.cls (· == '@'))
      (.cat (plusRE (.cat (plusRE domainC) (.cls (· == '.'))))
        (plusRE (.cat alnumC (.cat alnumC (.cat (optRE alnumC) (optRE alnumC)))))))

/-- `[a-zA-Z0-9]{3,12}`: three mandatory alphanumeric characters
followed by nine optional ones. -/
def usernameRegex : RE :=
  .cat alnumC (.cat alnumC (.cat alnumC
    (.cat (optRE alnumC) (.cat (optRE alnumC) (.cat (optRE alnumC)
      (.cat (optRE alnumC) (.cat (optRE alnumC) (.cat (optRE alnumC)
        (.cat (optRE alnumC) (.cat (optRE alnumC) (optRE alnumC)))))))))))

/-- Wildcard `.*` (any character; the source patterns contain no `.`
metacharacter outside classes, this is only used to model the
unanchored search of JavaScript `RegExp.test`). -/
def anyStar : RE := .star (.cls (fun _ => true))

/-- JavaScript `RegExp.test` for an unanchored pattern: some substring
matches, i.e. the whole string matches `.*r.*`. -/
def reTest (r : RE) (s : String) : Bool :=
  matchList (.cat anyStar (.cat r anyStar)) s.data

/-- JavaScript `RegExp.test` for the `^...$`-anchored email pattern:
the anchors force a full match. -/
def emailTest (s : String) : Bool :=
  matchList emailRegex s.data

/-- Input record of `validateRegister` (interface `RegisterInput`). -/
structure RegisterInput : Type where
  email : String
  password : String
  username : String

/-- `validateRegister` from the source: email checked against the
anchored email regex, username against the unanchored username regex,
then the password length check (message text taken verbatim from the
source). Returns `none` when every check passes (the source function
falls through with no return value). -/
def validateRegister (input : RegisterInput) : Option String :=
  if emailTest input.email = false then
    some "incorrect email"
  else if reTest usernameRegex input.username = false then
    some "username should be 3-12 characters"
  else if input.password.length < 4 then
    some "password must be at least 8 characters"
  else
    none

/-! ## Characterising the username check

The username regex is searched unanchored, so it accepts exactly the
strings containing three consecutive alphanumeric characters. -/

/-- Does the character list contain (anywhere) a run of three
consecutive alphanumeric characters? -/
def hasRun3 : List Char → Bool
  | c1 :: c2 :: c3 :: rest =>
      (c1.isAlphanum && c2.isAlphanum && c3.isAlphanum) || hasRun3 (c2 :: c3 :: rest)
  | _ => false

theorem anyStar_matches (l : List Char) : RMatch anyStar l := by
  induction l with
  | nil => exact .starNil
  | cons c l ih =>
      have h1 : RMatch (RE.cls (fun _ => true)) [c] := .cls rfl
      exact RMatch.starCat h1 ih (s := [c]) (t := l)

theorem optRE_nil (r : RE) : RMatch (optRE r) [] := .altL .eps

theorem usernameRegex_of_run {c1 c2 c3 : Char}
    (h1 : c1.isAlphanum = true) (h2 : c2.isAlphanum = true)
    (h3 : c3.isAlphanum = true) : RMatch usernameRegex [c1, c2, c3] := by
  have ho : RMatch (RE.cat (optRE alnumC) (.cat (optRE alnumC) (.cat (optRE alnumC)
      (.cat (optRE alnumC) (.cat (optRE alnumC) (.cat (optRE alnumC)
        (.cat (optRE alnumC) (.cat (optRE alnumC) (optRE alnumC))))))))) [] := by
    exact .cat (optRE_nil _) (.cat (optRE_nil _) (.cat (optRE_nil _)
      (.cat (optRE_nil _) (.cat (optRE_nil _) (.cat (optRE_nil _)
        (.cat (optRE_nil _) (.cat (optRE_nil _) (optRE_nil _))))))))
  exact .cat (.cls h1) (.cat (.cls h2) (.cat (.cls h3) ho)
    (s := [c2]) (t := [c3])) (s := [c1]) (t := [c2, c3])

theorem hasRun3_cons {t : List Char} (a : Char) (h : hasRun3 t = true) :
    hasRun3 (a :: t) = true := by
  match t with
  | [] => simp [hasRun3] at h
  | [c] => simp [hasRun3] at h
  | c2 :: c3 :: rest =>
      simp only [hasRun3, Bool.or_eq_true]
      exact Or.inr h

theorem hasRun3_append {t : List Char} (u : List Char) (h : hasRun3 t = true) :
    hasRun3 (u ++ t) = true := by
  induction u with
  | nil => exact h
  | cons a u ih => exact hasRun3_cons a ih

theorem usernameRegex_inv {v : List Char} (h : RMatch usernameRegex v) :
    ∃ c1 c2 c3 t, v = c1 :: c2 :: c3 :: t ∧
      c1.isAlphanum = true ∧ c2.isAlphanum = true ∧ c3.isAlphanum = true := by
  rcases cat_inv h with ⟨s1, r1, hv, hs1, hr1⟩
  rcases cls_inv hs1 with ⟨c1, rfl, h1⟩
  rcases cat_inv hr1 with ⟨s2, r2, hr, hs2, hr2⟩
  rcases cls_inv hs2 with ⟨c2, rfl, h2⟩
  rcases cat_inv hr2 with ⟨s3, r3, hr', hs3, -⟩
  rcases cls_inv hs3 with ⟨c3, rfl, h3⟩
  subst hr'; subst hr; subst hv
  exact ⟨c1, c2, c3, r3, rfl, h1, h2, h3⟩

theorem search_cons {r : RE} {l : List Char} (c : Char)
    (h : RMatch (.cat anyStar (.cat r anyStar)) l) :
    RMatch (.cat anyStar (.cat r anyStar)) (c :: l) := by
  rcases cat_inv h with ⟨u, x, rfl, hu, hx⟩
  have hcu : RMatch anyStar (c :: u) :=
    RMatch.starCat (.cls rfl) hu (s := [c]) (t := u)
  exact RMatch.cat hcu hx (s := c :: u) (t := x)

theorem search_username_of_run {l : List Char} (h : hasRun3 l = true) :
    RMatch (.cat anyStar (.cat usernameRegex anyStar)) l := by
  induction l with
  | nil => simp [hasRun3] at h
  | cons c1 rest ih =>
      match rest, h, ih with
      | [], h, _ => simp [hasRun3] at h
      | [c2], h, _ => simp [hasRun3] at h
      | c2 :: c3 :: t, h, ih =>
          simp only [hasRun3, Bool.or_eq_true, Bool.and_eq_true] at h
          rcases h with ⟨⟨h1, h2⟩, h3⟩ | h
          · have hmid : RMatch (RE.cat usernameRegex anyStar) ([c1, c2, c3] ++ t) :=
              RMatch.cat (usernameRegex_of_run h1 h2 h3) (anyStar_matches t)
            exact RMatch.cat RMatch.starNil hmid (s := []) (t := [c1, c2, c3] ++ t)
          · exact search_cons c1 (ih (by
              simpa only [hasRun3, Bool.or_eq_true, Bool.and_eq_true] using h))

theorem run_of_search_username {l : List Char}
    (h : RMatch (.cat anyStar (.cat usernameRegex anyStar)) l) :
    hasRun3 l = true := by
  rcases cat_inv h with ⟨u, x, rfl, -, hx⟩
  rcases cat_inv hx with ⟨v, w, rfl, hv, -⟩
  rcases usernameRegex_inv hv with ⟨c1, c2, c3, t, rfl, h1, h2, h3⟩
  apply hasRun3_append u
  have hbase : hasRun3 (c1 :: c2 :: c3 :: (t ++ w)) = true := by
    simp [hasRun3, h1, h2, h3]
  simpa using hbase

theorem reTest_username_iff (s : String) :
    reTest usernameRegex s = true ↔ hasRun3 s.data = true := by
  unfold reTest
  rw [matchList_iff]
  exact ⟨run_of_search_username, search_username_of_run⟩

/-! ## Data model

The record kinds of the store (`Post`, `PostVote`, `UserSub`,
`Comment`), with timestamps as natural numbers. The store itself is a
collection of record lists plus the set of existing sub (community)
names, standing for the relational database behind the
object-relational mapper. -/

structure Post : Type where
  id : String
  title : String
  body : String
  image : Option String
  creatorId : String
  subName : String
  createdAt : Nat
  updatedAt : Nat
deriving DecidableEq, Repr

structure PostVote : Type where
  userId : String
  postId : String
  value : Int
deriving DecidableEq, Repr

structure UserSub : Type where
  userId : String
  subName : String
deriving DecidableEq, Repr

structure Comment : Type where
  id : String
  postId : String
  body : String
  creatorId : String
  createdAt : Nat
deriving DecidableEq, Repr

structure Store : Type where
  posts : List Post
  postVotes : List PostVote
  userSubs : List UserSub
  comments : List Comment
  subs : List String
deriving DecidableEq, Repr

/-- The pagination input (`PaginationInput`): an optional cursor (a
creation-timestamp position) and a requested page size `take`. -/
structure PaginationInput : Type where
  cursor : Option Nat
  take : Nat
deriving DecidableEq, Repr

/-- Result shape of `Query.feed` (`PaginatedPosts`). -/
structure PaginatedPosts : Type where
  hasMore : Bool
  posts : List Post
deriving DecidableEq, Repr

/-- Result shape of `Post.comments` (`PaginatedComments`). -/
structure PaginatedComments : Type where
  hasMore : Bool
  comments : List Comment
deriving DecidableEq, Repr

/-- Order a record list descending by creation time
(`orderBy: { createdAt: "desc" }` of the store's find). -/
def sortDesc (createdAt : α → Nat) (l : List α) : List α :=
  l.insertionSort (fun a b => createdAt b ≤ createdAt a)

/-- Modelled from the spec: `getPaginationData`
(`src/server/src/lib/paginate.ts`, absent from `src/`) turns the
pagination input into a fetch directive that "retrieves N+1 records
starting after the cursor"; the cursor is "an opaque position
(timestamp-based, descending)", so the records at or after the cursor
position are dropped. -/
def cursorFilter (createdAt : α → Nat) (cursor : Option Nat) (l : List α) : List α :=
  match cursor with
  | none => l
  | some c => l.filter (fun x => createdAt x < c)

/-- An ordered, cursor-restricted find against a record list: the
records eligible for the requested page, before the lookahead
truncation. -/
def eligible (createdAt : α → Nat) (input : PaginationInput) (l : List α) : List α :=
  cursorFilter createdAt input.cursor (sortDesc createdAt l)

/-- The underlying store fetch of a paginated resolver: the eligible
records truncated to `take + 1` (the lookahead fetch directive of
`getPaginationData`). -/
def fetchPage (createdAt : α → Nat) (input : PaginationInput) (l : List α) : List α :=
  (eligible createdAt input l).take (input.take + 1)

/-! ## Read resolvers (`Post.votes`, `Post.comments`, `Post.voteStatus`,
`Query.feed`)

The session is the result of the `getSession` accessor, which is
modelled from the spec (`src/server/src/lib/auth.ts` is absent from
`src/`): it returns "`{userId}` or null", here `Option String`. -/

/-- `Post.votes`: fetch all vote records of the post and reduce their
values with `(prev, curr) => prev + curr.value` from `0`. -/
def votesResolver (store : Store) (postId : String) : Int :=
  (store.postVotes.filter (fun v => v.postId == postId)).foldl
    (fun prev curr => prev + curr.value) 0

/-- `Post.voteStatus`: `0` for an anonymous session, otherwise the
value of the vote record found under the unique key
`(session.userId, post.id)`, or `0` when none exists. -/
def voteStatus (store : Store) (session : Option String) (postId : String) : Int :=
  match session with
  | none => 0
  | some userId =>
      match store.postVotes.find? (fun v => v.userId == userId && v.postId == postId) with
      | none => 0
      | some vote => vote.value

/-- The `where` clause of the feed's post fetch: for an authenticated
session, posts whose `subName` is in the caller's subscriptions
(`subName: { in: subNames }`); for an anonymous session, all posts. -/
def feedWhere (store : Store) (session : Option String) : List Post :=
  match session with
  | some userId =>
      let subNames := (store.userSubs.filter (fun s => s.userId == userId)).map
        (fun s => s.subName)
      store.posts.filter (fun p => subNames.contains p.subName)
  | none => store.posts

/-- The sub names the user is subscribed to (the `userSub.findMany`
projection in `Query.feed`). -/
def subNamesOf (store : Store) (userId : String) : List String :=
  (store.userSubs.filter (fun s => s.userId == userId)).map (fun s => s.subName)

/-- The underlying fetch of `Query.feed` (the `post.findMany` result,
`take + 1` records of lookahead). -/
def feedFetch (store : Store) (session : Option String) (input : PaginationInput) :
    List Post :=
  fetchPage Post.createdAt input (feedWhere store session)

/-- `Query.feed`, threading the store through the request: the store
comes back unchanged (the resolver only runs find queries) together
with the response `{ hasMore, posts }`. -/
def feedRun (store : Store) (session : Option String) (input : PaginationInput) :
    Store × PaginatedPosts :=
  let posts := feedFetch store session input
  (store, { hasMore := posts.length == input.take + 1, posts := posts.take input.take })

/-- The underlying fetch of `Post.comments` (the `comment.findMany`
result for the parent post, `take + 1` records of lookahead). -/
def commentsFetch (store : Store) (postId : String) (input : PaginationInput) :
    List Comment :=
  fetchPage Comment.createdAt input (store.comments.filter (fun c => c.postId == postId))

/-- `Post.comments`: paginated comments of the parent post. -/
def commentsResolver (store : Store) (postId : String) (input : PaginationInput) :
    PaginatedComments :=
  let comments := commentsFetch store postId input
  { hasMore := comments.length == input.take + 1,
    comments := comments.take input.take }

/-! ## Mutations (`Mutation.createPost`, `Mutation.editPost`,
`Mutation.deletePost`)

Each mutation returns the post-state of the store paired with either
the resolver's result or the fault it throws. The fault taxonomy
follows the exceptions thrown in the source: the authentication fault
of `getSession(req, true)`, `UserInputError`, and `ApolloError` with
its message. -/

inductive Fault : Type where
  | unauthenticated : Fault
  | userInput (msg : String) : Fault
  | apollo (msg : String) : Fault
deriving DecidableEq, Repr

/-- The payload of create/edit (`PostInput`): title, body, optional
image. -/
structure PostInput : Type where
  title : String
  body : String
  image : Option String
deriving DecidableEq, Repr

/-- Modelled from the spec: `validatePost`
(`src/server/src/lib/validate.ts`, absent from `src/`) checks the
title/body "against basic non-empty/length rules" and returns a
field-level message for a malformed payload, nothing otherwise. -/
def validatePost (input : PostInput) : Option String :=
  if input.title.isEmpty then some "title must not be empty"
  else if input.body.isEmpty then some "body must not be empty"
  else none

/-- Modelled from the spec: the store's post create (a relational
insert behind the object-relational mapper) fails exactly when the
referenced community is absent ("store failure (e.g., referenced
community absent)"); otherwise the new record is added. -/
def storeCreatePost (store : Store) (post : Post) : Option Store :=
  if store.subs.contains post.subName then
    some { store with posts := post :: store.posts }
  else
    none

/-- `Mutation.createPost`: require a session, validate the payload,
then attempt the store create; a store failure is reported as the
generic `"sub not found"` fault. `newId` is the identifier the store
assigns and `now` the creation timestamp. -/
def createPost (store : Store) (session : Option String) (subName : String)
    (input : PostInput) (newId : String) (now : Nat) : Store × Except Fault Post :=
  match session with
  | none => (store, .error .unauthenticated)
  | some userId =>
      match validatePost input with
      | some msg => (store, .error (.userInput msg))
      | none =>
          let post : Post :=
            { id := newId, title := input.title, body := input.body,
              image := input.image, creatorId := userId, subName := subName,
              createdAt := now, updatedAt := now }
          match storeCreatePost store post with
          | some store' => (store', .ok post)
          | none => (store, .error (.apollo "sub not found"))

/-- `Mutation.editPost`: require a session, look up the post, fault
`"post not found"` if absent, fault `"cannot update post"` if the
session's user is not the creator, otherwise update the record with
the payload and a fresh `updatedAt` timestamp `now`. -/
def editPost (store : Store) (session : Option String) (postId : String)
    (input : PostInput) (now : Nat) : Store × Except Fault Post :=
  match session with
  | none => (store, .error .unauthenticated)
  | some userId =>
      match store.posts.find? (fun p => p.id == postId) with
      | none => (store, .error (.apollo "post not found"))
      | some postExists =>
          if postExists.creatorId ≠ userId then
            (store, .error (.apollo "cannot update post"))
          else
            let updated : Post :=
              { postExists with
                  title := input.title,
                  body := input.body,
                  image := input.image,
                  updatedAt := now }
            ({ store with
                posts := store.posts.map (fun p => if p.id == postId then updated else p) },
              .ok updated)

/-- `Mutation.deletePost`: require a session, look up the post, fault
`"post not found"` if absent, fault `"cannot update post"` if the
session's user is not the creator, otherwise delete the record and
return `true`. -/
def deletePost (store : Store) (session : Option String) (postId : String) :
    Store × Except Fault Bool :=
  match session with
  | none => (store, .error .unauthenticated)
  | some userId =>
      match store.posts.find? (fun p => p.id == postId) with
      | none => (store, .error (.apollo "post not found"))
      | some postExists =>
          if postExists.creatorId ≠ userId then
            (store, .error (.apollo "cannot update post"))
          else
            ({ store with posts := store.posts.filter (fun p => ¬(p.id == postId)) },
              .ok true)

/-! ## General lemmas about the pagination pipeline -/

theorem length_fetchPage (createdAt : α → Nat) (input : PaginationInput) (l : List α) :
    (fetchPage createdAt input l).length
      = min (input.take + 1) (eligible createdAt input l).length := by
  simp [fetchPage, List.length_take]

theorem mem_of_mem_eligible {createdAt : α → Nat} {input : PaginationInput}
    {l : List α} {x : α} (h : x ∈ eligible createdAt input l) : x ∈ l := by
  unfold eligible cursorFilter at h
  have hsort : x ∈ sortDesc createdAt l := by
    cases hc : input.cursor with
    | none => rw [hc] at h; exact h
    | some c => rw [hc] at h; exact (List.mem_filter.mp h).1
  exact (List.mem_insertionSort _).mp hsort

theorem mem_of_mem_fetchPage {createdAt : α → Nat} {input : PaginationInput}
    {l : List α} {x : α} (h : x ∈ fetchPage createdAt input l) : x ∈ l :=
  mem_of_mem_eligible (List.mem_of_mem_take h)

theorem foldl_add_value (l : List PostVote) (init : Int) :
    l.foldl (fun prev curr => prev + curr.value) init
      = init + (l.map PostVote.value).sum := by
  induction l generalizing init with
  | nil => simp
  | cons v l ih => simp [ih, add_assoc]

theorem find?_of_filter_singleton {l : List α} {p : α → Bool} {v : α}
    (h : l.filter p = [v]) : l.find? p = some v := by
  induction l with
  | nil => simp at h
  | cons a l ih =>
      by_cases ha : p a = true
      · rw [List.filter_cons_of_pos ha] at h
        rcases List.cons_eq_cons.mp h with ⟨rfl, -⟩
        simp [List.find?_cons, ha]
      · rw [List.filter_cons_of_neg ha] at h
        simp only [List.find?_cons, ha]
        exact ih h

/-! ## Claim theorems -/

/-- C2: for every post, the `votes` field equals the sum of the `value`
fields of all stored vote records for that post; the aggregate is a
function of the current vote records alone (a newly inserted vote is
reflected on the next read, nothing is cached). -/
theorem votes_field_is_vote_sum (store : Store) (postId : String) :
    (votesResolver store postId
        = ((store.postVotes.filter (fun v => v.postId == postId)).map PostVote.value).sum)
    ∧ (∀ v : PostVote,
        votesResolver { store with postVotes := v :: store.postVotes } postId
          = (if v.postId == postId then v.value else 0) + votesResolver store postId) := by
  constructor
  · simp [votesResolver, foldl_add_value]
  · intro v
    by_cases hv : v.postId == postId
    · simp [votesResolver, foldl_add_value, List.filter_cons, hv]
    · simp only [Bool.not_eq_true] at hv
      simp [votesResolver, foldl_add_value, List.filter_cons, hv]

/-- C8: the feed resolver returns the store unchanged (it performs no
writes), and evaluating it again over the store it returned, with the
same session and pagination input, yields the same output. -/
theorem feed_no_writes_idempotent (store : Store) (session : Option String)
    (input : PaginationInput) :
    ((feedRun store session input).1 = store)
    ∧ ((feedRun (feedRun store session input).1 session input).2
        = (feedRun store session input).2) :=
  ⟨rfl, rfl⟩

/-- C1: for the feed and comment pagination resolvers with a positive
`take`: the page is the underlying fetch truncated to `take`; `hasMore`
holds iff the fetch returned exactly `take + 1` records; with at least
`take + 1` eligible records the page has exactly `take` records and
`hasMore` is true; with exactly `take` eligible records `hasMore` is
false. -/
theorem pagination_lookahead (store : Store) (session : Option String)
    (postId : String) (input : PaginationInput) (_hpos : 0 < input.take) :
    ((feedRun store session input).2.posts
        = (feedFetch store session input).take input.take)
    ∧ ((feedRun store session input).2.hasMore = true
        ↔ (feedFetch store session input).length = input.take + 1)
    ∧ (input.take + 1 ≤ (eligible Post.createdAt input (feedWhere store session)).length
        → (feedRun store session input).2.posts.length = input.take
          ∧ (feedRun store session input).2.hasMore = true)
    ∧ ((eligible Post.createdAt input (feedWhere store session)).length = input.take
        → (feedRun store session input).2.hasMore = false)
    ∧ ((commentsResolver store postId input).comments
        = (commentsFetch store postId input).take input.take)
    ∧ ((commentsResolver store postId input).hasMore = true
        ↔ (commentsFetch store postId input).length = input.take + 1)
    ∧ (input.take + 1
          ≤ (eligible Comment.createdAt input
              (store.comments.filter (fun c => c.postId == postId))).length
        → (commentsResolver store postId input).comments.length = input.take
          ∧ (commentsResolver store postId input).hasMore = true)
    ∧ ((eligible Comment.createdAt input
          (store.comments.filter (fun c => c.postId == postId))).length = input.take
        → (commentsResolver store postId input).hasMore = false) := by
  have hfeedlen : (feedFetch store session input).length
      = min (input.take + 1) (eligible Post.createdAt input (feedWhere store session)).length :=
    length_fetchPage _ _ _
  have hcomlen : (commentsFetch store postId input).length
      = min (input.take + 1)
          (eligible Comment.createdAt input
            (store.comments.filter (fun c => c.postId == postId))).length :=
    length_fetchPage _ _ _
  refine ⟨rfl, ?_, ?_, ?_, rfl, ?_, ?_, ?_⟩
  · simp [feedRun]
  · intro hE
    have hlen : (feedFetch store session input).length = input.take + 1 := by
      rw [hfeedlen]; exact Nat.min_eq_left hE
    constructor
    · simp [feedRun, List.length_take, hlen]
    · simp [feedRun, hlen]
  · intro hE
    have hlen : (feedFetch store session input).length = input.take := by
      rw [hfeedlen, hE]
      exact Nat.min_eq_right (Nat.le_succ _)
    have : (feedFetch store session input).length ≠ input.take + 1 := by
      rw [hlen]; exact Nat.ne_of_lt (Nat.lt_succ_self _)
    simp [feedRun, hlen]
  · simp [commentsResolver]
  · intro hE
    have hlen : (commentsFetch store postId input).length = input.take + 1 := by
      rw [hcomlen]; exact Nat.min_eq_left hE
    constructor
    · simp [commentsResolver, List.length_take, hlen]
    · simp [commentsResolver, hlen]
  · intro hE
    have hlen : (commentsFetch store postId input).length = input.take := by
      rw [hcomlen, hE]
      exact Nat.min_eq_right (Nat.le_succ _)
    simp [commentsResolver, hlen]

/-- C3: every post in an authenticated feed page belongs to a sub the
caller is subscribed to; the anonymous feed ignores the subscription
table entirely and draws from all posts. -/
theorem feed_subscription_restriction (store : Store) (userId : String)
    (input : PaginationInput) :
    (∀ p ∈ (feedRun store (some userId) input).2.posts,
        p.subName ∈ subNamesOf store userId)
    ∧ (∀ subs2 : List UserSub,
        (feedRun { store with userSubs := subs2 } none input).2
          = (feedRun store none input).2)
    ∧ (∀ p ∈ (feedRun store none input).2.posts, p ∈ store.posts) := by
  refine ⟨?_, fun _ => rfl, ?_⟩
  · intro p hp
    have h1 : p ∈ feedFetch store (some userId) input := List.mem_of_mem_take hp
    have h2 : p ∈ feedWhere store (some userId) := mem_of_mem_fetchPage h1
    simp only [feedWhere] at h2
    have hcond := (List.mem_filter.mp h2).2
    simpa [subNamesOf, List.contains_iff_exists_mem_beq] using hcond
  · intro p hp
    exact mem_of_mem_fetchPage (List.mem_of_mem_take hp)

/-- C5: assuming every stored vote value is `±1`, `voteStatus` only
takes values in `{-1, 0, 1}`; it is `0` for an anonymous request and
when no vote record with key `(userId, postId)` exists, and otherwise
it is the value of that unique record. -/
theorem voteStatus_cases (store : Store) (postId : String)
    (hvals : ∀ v ∈ store.postVotes, v.value = 1 ∨ v.value = -1) :
    (∀ session : Option String,
        voteStatus store session postId = -1 ∨ voteStatus store session postId = 0
          ∨ voteStatus store session postId = 1)
    ∧ (voteStatus store none postId = 0)
    ∧ (∀ userId : String,
        (∀ v ∈ store.postVotes, ¬(v.userId = userId ∧ v.postId = postId))
          → voteStatus store (some userId) postId = 0)
    ∧ (∀ (userId : String) (v : PostVote),
        store.postVotes.filter (fun w => w.userId == userId && w.postId == postId) = [v]
          → voteStatus store (some userId) postId = v.value) := by
  refine ⟨?_, rfl, ?_, ?_⟩
  · intro session
    cases session with
    | none => simp [voteStatus]
    | some userId =>
        cases hf : store.postVotes.find? (fun v => v.userId == userId && v.postId == postId) with
        | none => simp [voteStatus, hf]
        | some v =>
            have hv := hvals v (List.mem_of_find?_eq_some hf)
            rcases hv with hv | hv
            · right; right; simp [voteStatus, hf, hv]
            · left; simp [voteStatus, hf, hv]
  · intro userId hnone
    have hf : store.postVotes.find? (fun v => v.userId == userId && v.postId == postId)
        = none := by
      rw [List.find?_eq_none]
      intro v hv
      have := hnone v hv
      simp only [Bool.and_eq_true, beq_iff_eq]
      tauto
    simp [voteStatus, hf]
  · intro userId v hfilter
    have hf := find?_of_filter_singleton hfilter
    simp [voteStatus, hf]

/-- C4: for `editPost` and `deletePost` the guards run in a fixed
order, terminal at the first failure: no session → unauthenticated
fault; post absent → `"post not found"`; session's user not the
creator → `"cannot update post"` (for any payload); otherwise the
update (with a fresh `updatedAt` stamp `now`) or delete is performed. -/
theorem edit_delete_guard_order (store : Store) (postId : String)
    (input : PostInput) (now : Nat) :
    (editPost store none postId input now = (store, .error .unauthenticated))
    ∧ (deletePost store none postId = (store, .error .unauthenticated))
    ∧ (∀ userId, store.posts.find? (fun q => q.id == postId) = none
        → editPost store (some userId) postId input now
            = (store, .error (.apollo "post not found"))
          ∧ deletePost store (some userId) postId
            = (store, .error (.apollo "post not found")))
    ∧ (∀ userId p, store.posts.find? (fun q => q.id == postId) = some p
        → p.creatorId ≠ userId
        → editPost store (some userId) postId input now
            = (store, .error (.apollo "cannot update post"))
          ∧ deletePost store (some userId) postId
            = (store, .error (.apollo "cannot update post")))
    ∧ (∀ userId p, store.posts.find? (fun q => q.id == postId) = some p
        → p.creatorId = userId
        → editPost store (some userId) postId input now
            = ({ store with
                  posts := store.posts.map (fun q =>
                    if q.id == postId then
                      { p with
                          title := input.title,
                          body := input.body,
                          image := input.image,
                          updatedAt := now }
                    else q) },
              .ok { p with
                      title := input.title,
                      body := input.body,
                      image := input.image,
                      updatedAt := now })
          ∧ deletePost store (some userId) postId
            = ({ store with posts := store.posts.filter (fun q => ¬(q.id == postId)) },
              .ok true)) := by
  refine ⟨rfl, rfl, ?_, ?_, ?_⟩
  · intro userId hf
    exact ⟨by simp [editPost, hf], by simp [deletePost, hf]⟩
  · intro userId p hf hne
    exact ⟨by simp [editPost, hf, hne], by simp [deletePost, hf, hne]⟩
  · intro userId p hf heq
    exact ⟨by simp [editPost, hf, heq], by simp [deletePost, hf, heq]⟩

/-- C6: `createPost` proceeds in order, terminal on first failure: no
session → unauthenticated fault; invalid payload → input validation
fault carrying the validator's message; store create failure →
`"sub not found"`; otherwise the created post is returned. -/
theorem createPost_guard_order (store : Store) (subName : String)
    (input : PostInput) (newId : String) (now : Nat) :
    (createPost store none subName input newId now = (store, .error .unauthenticated))
    ∧ (∀ userId msg, validatePost input = some msg
        → createPost store (some userId) subName input newId now
            = (store, .error (.userInput msg)))
    ∧ (∀ userId, validatePost input = none
        → store.subs.contains subName = false
        → createPost store (some userId) subName input newId now
            = (store, .error (.apollo "sub not found")))
    ∧ (∀ userId, validatePost input = none
        → store.subs.contains subName = true
        → createPost store (some userId) subName input newId now
            = ({ store with
                  posts :=
                    { id := newId, title := input.title, body := input.body,
                      image := input.image, creatorId := userId, subName := subName,
                      createdAt := now, updatedAt := now } :: store.posts },
              .ok { id := newId, title := input.title, body := input.body,
                    image := input.image, creatorId := userId, subName := subName,
                    createdAt := now, updatedAt := now })) := by
  refine ⟨rfl, ?_, ?_, ?_⟩
  · intro userId msg hval
    simp [createPost, hval]
  · intro userId hval hsub
    have hmem : subName ∉ store.subs := by simpa using hsub
    simp [createPost, hval, storeCreatePost, hmem]
  · intro userId hval hsub
    have hmem : subName ∈ store.subs := by simpa using hsub
    simp [createPost, hval, storeCreatePost, hmem]

/-- C7: each mutation leaves the store untouched whenever it
terminates with a fault, and on success performs exactly one store
write: a single record insertion for create, a single keyed record
replacement for edit, a single keyed record removal for delete, with
every other record collection unchanged. -/
theorem mutations_single_write (store : Store) (session : Option String)
    (subName postId newId : String) (input : PostInput) (now : Nat) :
    (∀ f, (createPost store session subName input newId now).2 = .error f
        → (createPost store session subName input newId now).1 = store)
    ∧ (∀ f, (editPost store session postId input now).2 = .error f
        → (editPost store session postId input now).1 = store)
    ∧ (∀ f, (deletePost store session postId).2 = .error f
        → (deletePost store session postId).1 = store)
    ∧ (∀ p, (createPost store session subName input newId now).2 = .ok p
        → (createPost store session subName input newId now).1
            = { store with posts := p :: store.posts })
    ∧ (∀ p, (editPost store session postId input now).2 = .ok p
        → (editPost store session postId input now).1
            = { store with
                  posts := store.posts.map (fun q => if q.id == postId then p else q) })
    ∧ (∀ b, (deletePost store session postId).2 = .ok b
        → (deletePost store session postId).1
            = { store with posts := store.posts.filter (fun q => ¬(q.id == postId)) }) := by
  refine ⟨?_, ?_, ?_, ?_, ?_, ?_⟩
  · intro f h
    cases session with
    | none => rfl
    | some userId =>
        cases hval : validatePost input with
        | some msg => simp [createPost, hval]
        | none =>
            by_cases hmem : subName ∈ store.subs
            · simp [createPost, hval, storeCreatePost, hmem] at h
            · simp [createPost, hval, storeCreatePost, hmem]
  · intro f h
    cases session with
    | none => rfl
    | some userId =>
        cases hf : store.posts.find? (fun q => q.id == postId) with
        | none => simp [editPost, hf]
        | some p =>
            by_cases hne : p.creatorId = userId
            · simp [editPost, hf, hne] at h
            · simp [editPost, hf, hne]
  · intro f h
    cases session with
    | none => rfl
    | some userId =>
        cases hf : store.posts.find? (fun q => q.id == postId) with
        | none => simp [deletePost, hf]
        | some p =>
            by_cases hne : p.creatorId = userId
            · simp [deletePost, hf, hne] at h
            · simp [deletePost, hf, hne]
  · intro p h
    cases session with
    | none => simp [createPost] at h
    | some userId =>
        cases hval : validatePost input with
        | some msg => simp [createPost, hval] at h
        | none =>
            by_cases hmem : subName ∈ store.subs
            · have hrun : createPost store (some userId) subName input newId now
                  = ({ store with
                        posts :=
                          { id := newId, title := input.title, body := input.body,
                            image := input.image, creatorId := userId,
                            subName := subName, createdAt := now,
                            updatedAt := now } :: store.posts },
                    .ok { id := newId, title := input.title, body := input.body,
                          image := input.image, creatorId := userId,
                          subName := subName, createdAt := now, updatedAt := now }) := by
                simp [createPost, hval, storeCreatePost, hmem]
              rw [hrun] at h
              obtain rfl := Except.ok.inj h
              rw [hrun]
            · simp [createPost, hval, storeCreatePost, hmem] at h
  · intro p h
    cases session with
    | none => simp [editPost] at h
    | some userId =>
        cases hf : store.posts.find? (fun q => q.id == postId) with
        | none => simp [editPost, hf] at h
        | some q0 =>
            by_cases hne : q0.creatorId = userId
            · have hrun : editPost store (some userId) postId input now
                  = ({ store with
                        posts := store.posts.map (fun q =>
                          if q.id == postId then
                            { q0 with
                                title := input.title,
                                body := input.body,
                                image := input.image,
                                updatedAt := now }
                          else q) },
                    .ok { q0 with
                            title := input.title,
                            body := input.body,
                            image := input.image,
                            updatedAt := now }) := by
                simp [editPost, hf, hne]
              rw [hrun] at h
              obtain rfl := Except.ok.inj h
              rw [hrun]
            · simp [editPost, hf, hne] at h
  · intro b h
    cases session with
    | none => simp [deletePost] at h
    | some userId =>
        cases hf : store.posts.find? (fun q => q.id == postId) with
        | none => simp [deletePost, hf] at h
        | some q0 =>
            by_cases hne : q0.creatorId = userId
            · simp [deletePost, hf, hne]
            · simp [deletePost, hf, hne] at h

/-- C9: with a valid email and username, `validateRegister` returns
the password fault (whose message claims a minimum of 8 characters)
exactly for passwords shorter than 4 characters, and accepts every
password of length at least 4. -/
theorem validateRegister_password_rule (input : RegisterInput)
    (hemail : emailTest input.email = true)
    (husername : reTest usernameRegex input.username = true) :
    (validateRegister input = some "password must be at least 8 characters"
      ↔ input.password.length < 4)
    ∧ (validateRegister input = none ↔ 4 ≤ input.password.length) := by
  unfold validateRegister
  rw [hemail, husername]
  by_cases hlen : input.password.length < 4
  · simp [hlen]
  · simp [hlen]
    omega

/-- C10: the username check is an unanchored search, accepting exactly
the strings containing a run of three consecutive alphanumeric
characters anywhere — in particular strings longer than 12 characters
and strings containing characters outside `[a-zA-Z0-9]` — and
rejecting a string only when it has no such run. -/
theorem username_check_unanchored (s : String) :
    (reTest usernameRegex s = true ↔ hasRun3 s.data = true)
    ∧ reTest usernameRegex "abcdefghijklmnop" = true
    ∧ reTest usernameRegex "!!ab1!!" = true
    ∧ reTest usernameRegex "ab!cd!ef" = false := by
  refine ⟨reTest_username_iff s, ?_, ?_, ?_⟩
  · exact (reTest_username_iff _).mpr (by decide)
  · exact (reTest_username_iff _).mpr (by decide)
  · rw [Bool.eq_false_iff]
    intro h
    exact absurd ((reTest_username_iff _).mp h) (by decide)

/-! ## Concrete fixtures and witnesses -/

/-- A concrete post fixture. -/
def egPost1 : Post :=
  { id := "p1", title := "t1", body := "b1", image := none,
    creatorId := "u1", subName := "s1", createdAt := 3, updatedAt := 3 }

/-- A concrete post fixture. -/
def egPost2 : Post :=
  { id := "p2", title := "t2", body := "b2", image := none,
    creatorId := "u1", subName := "s1", createdAt := 2, updatedAt := 2 }

/-- A concrete post fixture. -/
def egPost3 : Post :=
  { id := "p3", title := "t3", body := "b3", image := none,
    creatorId := "u2", subName := "s2", createdAt := 1, updatedAt := 1 }

/-- A concrete store fixture: three posts in two subs, three votes on
`p1`, one subscription. -/
def egStore : Store :=
  { posts := [egPost1, egPost2, egPost3],
    postVotes := [{ userId := "u1", postId := "p1", value := 1 },
                  { userId := "u2", postId := "p1", value := 1 },
                  { userId := "u3", postId := "p1", value := -1 }],
    userSubs := [{ userId := "u1", subName := "s1" }],
    comments := [],
    subs := ["s1", "s2"] }

theorem pagination_lookahead_witness :
    0 < (2 : Nat)
    ∧ (feedRun egStore none { cursor := none, take := 2 }).2.posts.length = 2
    ∧ (feedRun egStore none { cursor := none, take := 2 }).2.hasMore = true :=
  ⟨by decide,
    ((pagination_lookahead egStore none "p1" { cursor := none, take := 2 }
      (by decide)).2.2.1 (by decide)).1,
    ((pagination_lookahead egStore none "p1" { cursor := none, take := 2 }
      (by decide)).2.2.1 (by decide)).2⟩

theorem feed_subscription_restriction_witness :
    egPost1.subName ∈ subNamesOf egStore "u1" :=
  (feed_subscription_restriction egStore "u1" { cursor := none, take := 2 }).1
    egPost1 (by decide)

theorem voteStatus_cases_witness :
    voteStatus egStore (some "u1") "p1" = 1 :=
  (voteStatus_cases egStore "p1" (by decide)).2.2.2 "u1"
    { userId := "u1", postId := "p1", value := 1 } (by decide)

theorem edit_delete_guard_order_witness :
    editPost egStore (some "u2") "p1" { title := "t", body := "b", image := none } 9
      = (egStore, .error (.apollo "cannot update post"))
    ∧ deletePost egStore (some "u2") "p1"
      = (egStore, .error (.apollo "cannot update post")) :=
  (edit_delete_guard_order egStore "p1" { title := "t", body := "b", image := none } 9).2.2.2.1
    "u2" egPost1 (by decide) (by decide)

theorem createPost_guard_order_witness :
    createPost egStore (some "u1") "s1" { title := "", body := "b", image := none } "p9" 7
      = (egStore, .error (.userInput "title must not be empty")) :=
  (createPost_guard_order egStore "s1" { title := "", body := "b", image := none } "p9" 7).2.1
    "u1" "title must not be empty" (by decide)

theorem mutations_single_write_witness :
    (deletePost egStore (some "u2") "p1").1 = egStore :=
  (mutations_single_write egStore (some "u2") "s1" "p1" "p9"
    { title := "t", body := "b", image := none } 7).2.2.1
    (.apollo "cannot update post") rfl

theorem validateRegister_password_rule_witness :
    validateRegister { email := "a@b.co", password := "pass", username := "user1" }
      = none :=
  (validateRegister_password_rule
    { email := "a@b.co", password := "pass", username := "user1" }
    (by decide) (by decide)).2.mpr (by decide)
